import Mathlib

/-!
Verification of the stack-based bytecode VM in `src/VMState/vm.py`.

The embedding mirrors the Python source:

* Stack values are `Option Int`: `some n` is a Python `int`, `none` is Python
  `None` (the assembler stores `None` when an instruction has no textual
  argument, and `vm_load_const` pushes its argument unconditionally).
* The operand stack (`queue.LifoQueue`) is a `List (Option Int)` whose head is
  the top of the stack (`queue[-1]`); `put` conses, `get` uncons.
* The program counter is `Option Int`: Python's `self.pc` starts as the int 0,
  but `vm_jmp` assigns its (possibly `None`) argument to it; comparing a `None`
  pc at fetch time raises a `TypeError` in Python.
* Errors carry the state at raise time, since a Python exception propagates
  without rolling back mutations already performed on the `VMState` object.
  Besides the VM's own exception classes we model the Python builtin errors the
  source can raise: `TypeError` (arithmetic or comparison on `None`),
  `ValueError` (`int()` on a malformed token, `chr()` out of range),
  `IndexError` (`queue[-1]` on an empty queue), `KeyError` (dispatch on an
  unregistered opcode id).
-/

/-- The errors the VM source can raise: its four exception classes plus the
Python builtin exceptions reachable from the source. -/
inductive VMError where
  | divByZero
  | segfault
  | stackFail
  | invalidInstruction
  | typeError
  | valueError
  | indexError
  | keyError
deriving Repr, DecidableEq

/-- One assembled instruction: `(opcode id, optional integer argument)`,
exactly the pairs `assemble` appends. -/
abbrev Instr := Nat × Option Int

/-- An assembled program: the list built by `assemble`. -/
abbrev Code := List Instr

/-- The mutable execution state of `VMState`: program counter, operand stack
(head = top), and the accumulated output string. -/
structure VMState where
  pc : Option Int
  stack : List (Option Int)
  vm_output : String
deriving Repr, DecidableEq

/-- The state `VMState.__init__` creates: `pc = 0`, empty stack, empty output. -/
def initState : VMState := { pc := some 0, stack := [], vm_output := "" }

/-- Result of one handler call: `ret s b` is a normal return of the boolean
`b` with post-state `s`; `err e s` is an exception `e` raised with the state
`s` at raise time. -/
inductive HOut where
  | ret : VMState → Bool → HOut
  | err : VMError → VMState → HOut
deriving Repr, DecidableEq

/-- The type of an opcode handler: `(vm_state, arg) -> bool`, possibly raising. -/
abbrev Handler := VMState → Option Int → HOut

/-- `check_argument_length(n)`: the decorator raising `VMStackFail` when fewer
than `n` items are on the stack, before the wrapped handler runs. The Python
default is `n = 1`. -/
def check_argument_length (n : Nat) (func : Handler) : Handler :=
  fun vm_state arg =>
    if vm_state.stack.length < n then .err .stackFail vm_state
    else func vm_state arg

/-- `vm_print`: depth check 1 (decorator default); prints the top to stdout
(outside the modelled state) and continues. -/
def vm_print : Handler := check_argument_length 1 fun vm_state _ =>
  .ret vm_state true

/-- `vm_load_const`: no depth check; pushes the instruction argument as-is
(`None` included) and continues. -/
def vm_load_const : Handler := fun vm_state arg =>
  .ret { vm_state with stack := arg :: vm_state.stack } true

/-- `vm_add`: depth check 2; pops `tos` then `tos_1`, pushes `tos + tos_1`.
Python `+` on a `None` operand raises `TypeError` (after both pops). -/
def vm_add : Handler := check_argument_length 2 fun vm_state _ =>
  match vm_state.stack with
  | tos :: tos_1 :: rest =>
    match tos, tos_1 with
    | some a, some b => .ret { vm_state with stack := some (a + b) :: rest } true
    | _, _ => .err .typeError { vm_state with stack := rest }
  | _ => .err .stackFail vm_state

/-- `vm_exit`: the source decorates it with `check_argument_length()` whose
DEFAULT is `n = 1`, so EXIT demands one stack element; it returns `False`
(the stop signal). -/
def vm_exit : Handler := check_argument_length 1 fun vm_state _ =>
  .ret vm_state false

/-- `vm_pop`: depth check 1; pops and discards the top. -/
def vm_pop : Handler := check_argument_length 1 fun vm_state _ =>
  match vm_state.stack with
  | _ :: rest => .ret { vm_state with stack := rest } true
  | [] => .err .stackFail vm_state

/-- `vm_div`: depth check 2; pops `tos` (divisor) then `tos_1` (dividend);
raises `DivByZero` when `tos == 0` (both operands already popped); otherwise
pushes `tos_1 // tos` (Python floor division). `//` on a `None` operand raises
`TypeError`; note Python `None == 0` is `False`, matching the `Option` test. -/
def vm_div : Handler := check_argument_length 2 fun vm_state _ =>
  match vm_state.stack with
  | tos :: tos_1 :: rest =>
    if tos = some 0 then .err .divByZero { vm_state with stack := rest }
    else
      match tos, tos_1 with
      | some a, some b => .ret { vm_state with stack := some (Int.fdiv b a) :: rest } true
      | _, _ => .err .typeError { vm_state with stack := rest }
  | _ => .err .stackFail vm_state

/-- `vm_eq`: depth check 2; pops two values, pushes `1` if they are `==` else
`0`. Python `==` on the pushed value domain agrees with `Option Int` equality. -/
def vm_eq : Handler := check_argument_length 2 fun vm_state _ =>
  match vm_state.stack with
  | tos :: tos_1 :: rest =>
    .ret { vm_state with stack := (if tos = tos_1 then some 1 else some 0) :: rest } true
  | _ => .err .stackFail vm_state

/-- `vm_neq`: depth check 2; pops two values, pushes `0` if they are `==` else
`1`. -/
def vm_neq : Handler := check_argument_length 2 fun vm_state _ =>
  match vm_state.stack with
  | tos :: tos_1 :: rest =>
    .ret { vm_state with stack := (if tos = tos_1 then some 0 else some 1) :: rest } true
  | _ => .err .stackFail vm_state

/-- `vm_dup`: depth check 1; pushes a copy of the current top. -/
def vm_dup : Handler := check_argument_length 1 fun vm_state _ =>
  match vm_state.stack with
  | tos :: rest => .ret { vm_state with stack := tos :: tos :: rest } true
  | [] => .err .stackFail vm_state

/-- `vm_jmp`: no depth check and no bounds check; assigns the (possibly absent)
argument to `pc`. -/
def vm_jmp : Handler := fun vm_state arg =>
  .ret { vm_state with pc := arg } true

/-- `vm_jmpz`: depth check 1; when the top is falsy (Python: `0` or `None`),
pops it and assigns the argument to `pc`; otherwise leaves everything as-is. -/
def vm_jmpz : Handler := check_argument_length 1 fun vm_state arg =>
  match vm_state.stack with
  | tos :: rest =>
    if tos = some 0 ∨ tos = none then .ret { vm_state with stack := rest, pc := arg } true
    else .ret vm_state true
  | [] => .err .stackFail vm_state

/-- Python `str` on a stack value: the decimal form of an `int`, the text
`None` for `None`. -/
def pyStr : Option Int → String
  | some n => toString n
  | none => "None"

/-- `vm_write`: depth check 1; appends `str(top)` to the output, stack
untouched. -/
def vm_write : Handler := check_argument_length 1 fun vm_state _ =>
  match vm_state.stack with
  | tos :: _ => .ret { vm_state with vm_output := vm_state.vm_output ++ pyStr tos } true
  | [] => .err .stackFail vm_state

/-- `vm_write_char`: depth check 1; appends `chr(top)` to the output, stack
untouched. Python `chr` raises `TypeError` on `None` and `ValueError` outside
`[0, 0x10FFFF]`. (Lean `Char` cannot hold the 2048 surrogate code points that
Python `chr` accepts; `Char.ofNat` maps those to the null character. No claim
in this development depends on a surrogate output byte.) -/
def vm_write_char : Handler := check_argument_length 1 fun vm_state _ =>
  match vm_state.stack with
  | tos :: _ =>
    match tos with
    | none => .err .typeError vm_state
    | some n =>
      if 0 ≤ n ∧ n ≤ 0x10FFFF then
        .ret { vm_state with
               vm_output := vm_state.vm_output ++ String.singleton (Char.ofNat n.toNat) } true
      else .err .valueError vm_state
  | [] => .err .stackFail vm_state

/-- `instruction_actions`: opcode id → handler, ids in the registration order
of `create_vm` (PRINT 0, LOAD_CONST 1, ADD 2, EXIT 3, POP 4, DIV 5, EQ 6,
NEQ 7, DUP 8, JMP 9, JMPZ 10, WRITE 11, WRITE_CHAR 12). A missing id is a
Python `KeyError`. -/
def instruction_actions : Nat → Option Handler
  | 0 => some vm_print
  | 1 => some vm_load_const
  | 2 => some vm_add
  | 3 => some vm_exit
  | 4 => some vm_pop
  | 5 => some vm_div
  | 6 => some vm_eq
  | 7 => some vm_neq
  | 8 => some vm_dup
  | 9 => some vm_jmp
  | 10 => some vm_jmpz
  | 11 => some vm_write
  | 12 => some vm_write_char
  | _ => none

/-- `instruction_ids`: mnemonic → opcode id, same registration order. -/
def instruction_ids : String → Option Nat
  | "PRINT" => some 0
  | "LOAD_CONST" => some 1
  | "ADD" => some 2
  | "EXIT" => some 3
  | "POP" => some 4
  | "DIV" => some 5
  | "EQ" => some 6
  | "NEQ" => some 7
  | "DUP" => some 8
  | "JMP" => some 9
  | "JMPZ" => some 10
  | "WRITE" => some 11
  | "WRITE_CHAR" => some 12
  | _ => none

/-- Outcome of one iteration of the `run` loop. -/
inductive StepOut where
  | cont : VMState → StepOut
  | stop : VMState → StepOut
  | err : VMError → VMState → StepOut
deriving Repr, DecidableEq

/-- The dispatch part of one `run` iteration (source lines 147-150): look up
the handler for the fetched opcode id (a missing id would be a `KeyError`),
call it, and translate its boolean into continue/stop. `s1` already has the
incremented pc. -/
def exec1 (instr : Instr) (s1 : VMState) : StepOut :=
  match instruction_actions instr.1 with
  | none => .err .keyError s1
  | some act =>
    match act s1 instr.2 with
    | .err e sE => .err e sE
    | .ret s2 cont => if cont then .cont s2 else .stop s2

/-- One full iteration of the `run` loop (source lines 140-150): a `None` pc
makes the `self.pc < 0` comparison raise `TypeError`; an out-of-range pc
raises `VMSegfault`; otherwise fetch `code[pc]`, increment pc, dispatch. -/
def step (code : Code) (s : VMState) : StepOut :=
  match s.pc with
  | none => .err .typeError s
  | some p =>
    if h : p < 0 ∨ (code.length : Int) ≤ p then .err .segfault s
    else
      exec1 (code.get ⟨p.toNat, by omega⟩) { s with pc := some (p + 1) }

/-- Final result of `run`: the returned `(top_of_stack, output)` pair, a
raised error with its state, or fuel exhaustion (the source loop can run
forever; `timeout` only means "did not finish within `fuel` iterations"). -/
inductive RunResult where
  | ok : Option Int → String → RunResult
  | err : VMError → VMState → RunResult
  | timeout : RunResult
deriving Repr, DecidableEq

/-- `run` (source lines 132-152), with explicit fuel: iterate `step`; on the
stop signal return `(self.stack.queue[-1], self.vm_output)` — `queue[-1]` on
an empty queue is a Python `IndexError`. -/
def run : Nat → Code → VMState → RunResult
  | 0, _, _ => .timeout
  | fuel + 1, code, s =>
    match step code s with
    | .err e sE => .err e sE
    | .stop sF =>
      match sF.stack with
      | [] => .err .indexError sF
      | top :: _ => .ok top sF.vm_output
    | .cont s2 => run fuel code s2

/-- The state in which the `run` loop breaks (the stop signal), when it does
so within `fuel` iterations. -/
def finalState : Nat → Code → VMState → Option VMState
  | 0, _, _ => none
  | fuel + 1, code, s =>
    match step code s with
    | .err _ _ => none
    | .stop sF => some sF
    | .cont s2 => finalState fuel code s2

/-- Python `text.split(sep)` for a one-character separator `sep`, on the
character list: keeps empty pieces, so the result always has one more piece
than there are separators. -/
def splitChars (sep : Char) : List Char → List (List Char)
  | [] => [[]]
  | c :: cs =>
    match splitChars sep cs with
    | [] => [[c]]
    | w :: ws => if c = sep then [] :: w :: ws else (c :: w) :: ws

/-- Python `s.split(sep)` for a one-character separator, on strings. -/
def pySplit (sep : Char) (s : String) : List String :=
  (splitChars sep s.data).map List.asString

/-- Decimal digits to a natural number; `none` on a non-digit. -/
def digitsValAux : List Char → Nat → Option Nat
  | [], acc => some acc
  | c :: cs, acc =>
    if c.isDigit then digitsValAux cs (acc * 10 + (c.toNat - '0'.toNat)) else none

/-- Decimal digits to a natural number; `none` when empty or on a non-digit. -/
def digitsVal : List Char → Option Nat
  | [] => none
  | cs => digitsValAux cs 0

/-- Models Python `int(token)` for an optional sign followed by decimal
digits; `none` models the `ValueError` raised on anything else. (Python's
`int` additionally strips surrounding whitespace and allows underscore group
separators; no such token occurs in this development.) -/
def pyInt : String → Option Int
  | s =>
    match s.data with
    | [] => none
    | c :: cs =>
      if c = '-' then (digitsVal cs).map (fun n => -(n : Int))
      else if c = '+' then (digitsVal cs).map (fun n => (n : Int))
      else (digitsVal (c :: cs)).map (fun n => (n : Int))

/-- Assembly of one non-empty line (source lines 116-128): split on single
spaces; three or more tokens raise `InvalidInstruction`; an unregistered
mnemonic raises `InvalidInstruction`; with exactly two tokens the argument
goes through `int(...)`, whose failure is a Python `ValueError`. -/
def assembleLine (line : String) : Except VMError Instr :=
  match pySplit ' ' line with
  | [w0] =>
    match instruction_ids w0 with
    | none => .error .invalidInstruction
    | some i => .ok (i, none)
  | [w0, w1] =>
    match instruction_ids w0 with
    | none => .error .invalidInstruction
    | some i =>
      match pyInt w1 with
      | none => .error .valueError
      | some n => .ok (i, some n)
  | _ => .error .invalidInstruction

/-- The assembly loop over a list of already-filtered lines: append one
instruction per line, aborting on the first failing line. -/
def assembleFiltered : List String → Except VMError Code
  | [] => .ok []
  | l :: ls =>
    match assembleLine l with
    | .error e => .error e
    | .ok i =>
      match assembleFiltered ls with
      | .error e => .error e
      | .ok rest => .ok (i :: rest)

/-- `assemble` on the split line list: `filter(None, lines)` keeps exactly the
non-empty strings (Python string truthiness), then each surviving line is
assembled in order. -/
def assembleLineList (ls : List String) : Except VMError Code :=
  assembleFiltered (ls.filter (fun l => l != ""))

/-- `assemble` (source lines 104-130): split the text on newlines, drop empty
lines, assemble each remaining line in order. -/
def assemble (input_code : String) : Except VMError Code :=
  assembleLineList (pySplit '\n' input_code)

/-- The ASCII whitespace characters of Python `str` (space, tab, newline,
carriage return, vertical tab `\x0b`, form feed `\x0c`): a line consisting
only of these is truthy (non-empty) in Python, so `filter(None, ...)` keeps
it. -/
abbrev pyWhitespace (c : Char) : Prop :=
  c = ' ' ∨ c = '\t' ∨ c = '\n' ∨ c = '\r' ∨ c = Char.ofNat 11 ∨ c = Char.ofNat 12

/-- Concatenation of a list of strings in order. -/
def strJoin : List String → String
  | [] => ""
  | s :: rest => s ++ strJoin rest

/-- The string an opcode appends to the output when it executes successfully
on the given stack: `WRITE` (id 11) appends `str(top)`, `WRITE_CHAR` (id 12)
appends `chr(top)`, every other opcode appends nothing. -/
def opEvent (opId : Nat) (stack : List (Option Int)) : List String :=
  if opId = 11 then
    match stack with
    | tos :: _ => [pyStr tos]
    | [] => []
  else if opId = 12 then
    match stack with
    | some n :: _ =>
      if 0 ≤ n ∧ n ≤ 0x10FFFF then [String.singleton (Char.ofNat n.toNat)] else []
    | _ => []
  else []

/-- The string appended by the instruction the next `step` executes. -/
def stepEvent (code : Code) (s : VMState) : List String :=
  match s.pc with
  | none => []
  | some p =>
    if h : p < 0 ∨ (code.length : Int) ≤ p then []
    else opEvent (code.get ⟨p.toNat, by omega⟩).1 s.stack

/-- The strings appended by the executed `WRITE`/`WRITE_CHAR` instructions,
in execution order, along a run. -/
def runEvents : Nat → Code → VMState → List String
  | 0, _, _ => []
  | fuel + 1, code, s =>
    match step code s with
    | .err _ _ => []
    | .stop _ => stepEvent code s
    | .cont s2 => stepEvent code s ++ runEvents fuel code s2

/-- Every stack value is an integer (`some`). -/
def allSome (stack : List (Option Int)) : Prop := ∀ v ∈ stack, v.isSome

theorem str_append_empty (s : String) : s ++ "" = s := by
  cases s with
  | mk data =>
    show String.mk (data ++ []) = String.mk data
    rw [List.append_nil]

theorem str_append_assoc (a b c : String) : a ++ b ++ c = a ++ (b ++ c) := by
  cases a with
  | mk da =>
    cases b with
    | mk db =>
      cases c with
      | mk dc =>
        show String.mk (da ++ db ++ dc) = String.mk (da ++ (db ++ dc))
        rw [List.append_assoc]

theorem strJoin_append (l1 l2 : List String) :
    strJoin (l1 ++ l2) = strJoin l1 ++ strJoin l2 := by
  induction l1 with
  | nil =>
    show strJoin l2 = "" ++ strJoin l2
    cases h : strJoin l2 with
    | mk d => show String.mk d = String.mk ([] ++ d); rw [List.nil_append]
  | cons s rest ih =>
    show s ++ strJoin (rest ++ l2) = s ++ strJoin rest ++ strJoin l2
    rw [ih, str_append_assoc]

/-- Master case analysis of one dispatch: every outcome of `exec1` is either a
raised error (never `Segfault`, never `IndexError`) or a normal return whose
state appends exactly the instruction's output event, pushes only integers
(when `LOAD_CONST` arguments are present), and, on the stop signal, keeps a
non-empty stack. -/
theorem exec1_main (opId : Nat) (arg : Option Int) (s1 : VMState) :
    (∃ e sE, exec1 (opId, arg) s1 = .err e sE ∧ e ≠ .segfault ∧ e ≠ .indexError) ∨
    (∃ s2, (exec1 (opId, arg) s1 = .cont s2 ∨ exec1 (opId, arg) s1 = .stop s2) ∧
      s2.vm_output = s1.vm_output ++ strJoin (opEvent opId s1.stack) ∧
      ((opId = 1 → arg.isSome) → allSome s1.stack → allSome s2.stack) ∧
      (exec1 (opId, arg) s1 = .stop s2 → s2.stack ≠ [])) := by
  rcases s1 with ⟨pc, stack, out⟩
  rcases opId with _|_|_|_|_|_|_|_|_|_|_|_|_|n
  · -- PRINT
    rcases stack with _ | ⟨tos, rest⟩
    · exact Or.inl ⟨_, _, rfl, by decide, by decide⟩
    · have hE : exec1 (0, arg) ⟨pc, tos :: rest, out⟩ = .cont ⟨pc, tos :: rest, out⟩ := rfl
      refine Or.inr ⟨_, Or.inl hE, ?_, fun _ hs => hs, ?_⟩
      · simp [opEvent, strJoin, str_append_empty]
      · intro hstop; rw [hE] at hstop; exact StepOut.noConfusion hstop
  · -- LOAD_CONST
    have hE : exec1 (1, arg) ⟨pc, stack, out⟩ = .cont ⟨pc, arg :: stack, out⟩ := rfl
    refine Or.inr ⟨_, Or.inl hE, ?_, ?_, ?_⟩
    · simp [opEvent, strJoin, str_append_empty]
    · intro harg hs v hv
      rcases List.mem_cons.mp hv with rfl | h
      · exact harg rfl
      · exact hs v h
    · intro hstop; rw [hE] at hstop; exact StepOut.noConfusion hstop
  · -- ADD
    rcases stack with _ | ⟨tos, _ | ⟨tos_1, rest⟩⟩
    · exact Or.inl ⟨_, _, rfl, by decide, by decide⟩
    · exact Or.inl ⟨_, _, rfl, by decide, by decide⟩
    · rcases tos with _ | a
      · exact Or.inl ⟨_, _, rfl, by decide, by decide⟩
      · rcases tos_1 with _ | b
        · exact Or.inl ⟨_, _, rfl, by decide, by decide⟩
        · have hE : exec1 (2, arg) ⟨pc, some a :: some b :: rest, out⟩ =
              .cont ⟨pc, some (a + b) :: rest, out⟩ := rfl
          refine Or.inr ⟨_, Or.inl hE, ?_, ?_, ?_⟩
          · simp [opEvent, strJoin, str_append_empty]
          · intro _ hs v hv
            rcases List.mem_cons.mp hv with rfl | h
            · rfl
            · exact hs v (by simp [h])
          · intro hstop; rw [hE] at hstop; exact StepOut.noConfusion hstop
  · -- EXIT
    rcases stack with _ | ⟨tos, rest⟩
    · exact Or.inl ⟨_, _, rfl, by decide, by decide⟩
    · have hE : exec1 (3, arg) ⟨pc, tos :: rest, out⟩ = .stop ⟨pc, tos :: rest, out⟩ := rfl
      refine Or.inr ⟨_, Or.inr hE, ?_, fun _ hs => hs, ?_⟩
      · simp [opEvent, strJoin, str_append_empty]
      · exact fun _ => List.cons_ne_nil _ _
  · -- POP
    rcases stack with _ | ⟨tos, rest⟩
    · exact Or.inl ⟨_, _, rfl, by decide, by decide⟩
    · have hE : exec1 (4, arg) ⟨pc, tos :: rest, out⟩ = .cont ⟨pc, rest, out⟩ := rfl
      refine Or.inr ⟨_, Or.inl hE, ?_, ?_, ?_⟩
      · simp [opEvent, strJoin, str_append_empty]
      · exact fun _ hs v hv => hs v (by simp [hv])
      · intro hstop; rw [hE] at hstop; exact StepOut.noConfusion hstop
  · -- DIV
    rcases stack with _ | ⟨tos, _ | ⟨tos_1, rest⟩⟩
    · exact Or.inl ⟨_, _, rfl, by decide, by decide⟩
    · exact Or.inl ⟨_, _, rfl, by decide, by decide⟩
    · rcases tos with _ | a
      · exact Or.inl ⟨_, _, rfl, by decide, by decide⟩
      · by_cases ha : a = 0
        · subst ha
          exact Or.inl ⟨_, _, rfl, by decide, by decide⟩
        · rcases tos_1 with _ | b
          · refine Or.inl ⟨.typeError, ⟨pc, rest, out⟩, ?_, by decide, by decide⟩
            simp only [exec1, instruction_actions, vm_div, check_argument_length]
            rw [if_neg (by simp only [List.length_cons]; omega)]
            simp [ha]
          · have hE : exec1 (5, arg) ⟨pc, some a :: some b :: rest, out⟩ =
                .cont ⟨pc, some (Int.fdiv b a) :: rest, out⟩ := by
              simp only [exec1, instruction_actions, vm_div, check_argument_length]
              rw [if_neg (by simp only [List.length_cons]; omega)]
              simp [ha]
            refine Or.inr ⟨_, Or.inl hE, ?_, ?_, ?_⟩
            · simp [opEvent, strJoin, str_append_empty]
            · intro _ hs v hv
              rcases List.mem_cons.mp hv with rfl | h
              · rfl
              · exact hs v (by simp [h])
            · intro hstop; rw [hE] at hstop; exact StepOut.noConfusion hstop
  · -- EQ
    rcases stack with _ | ⟨tos, _ | ⟨tos_1, rest⟩⟩
    · exact Or.inl ⟨_, _, rfl, by decide, by decide⟩
    · exact Or.inl ⟨_, _, rfl, by decide, by decide⟩
    · have hE : exec1 (6, arg) ⟨pc, tos :: tos_1 :: rest, out⟩ =
          .cont ⟨pc, (if tos = tos_1 then some 1 else some 0) :: rest, out⟩ := rfl
      refine Or.inr ⟨_, Or.inl hE, ?_, ?_, ?_⟩
      · simp [opEvent, strJoin, str_append_empty]
      · intro _ hs v hv
        rcases List.mem_cons.mp hv with rfl | h
        · by_cases he : tos = tos_1 <;> simp [he]
        · exact hs v (by simp [h])
      · intro hstop; rw [hE] at hstop; exact StepOut.noConfusion hstop
  · -- NEQ
    rcases stack with _ | ⟨tos, _ | ⟨tos_1, rest⟩⟩
    · exact Or.inl ⟨_, _, rfl, by decide, by decide⟩
    · exact Or.inl ⟨_, _, rfl, by decide, by decide⟩
    · have hE : exec1 (7, arg) ⟨pc, tos :: tos_1 :: rest, out⟩ =
          .cont ⟨pc, (if tos = tos_1 then some 0 else some 1) :: rest, out⟩ := rfl
      refine Or.inr ⟨_, Or.inl hE, ?_, ?_, ?_⟩
      · simp [opEvent, strJoin, str_append_empty]
      · intro _ hs v hv
        rcases List.mem_cons.mp hv with rfl | h
        · by_cases he : tos = tos_1 <;> simp [he]
        · exact hs v (by simp [h])
      · intro hstop; rw [hE] at hstop; exact StepOut.noConfusion hstop
  · -- DUP
    rcases stack with _ | ⟨tos, rest⟩
    · exact Or.inl ⟨_, _, rfl, by decide, by decide⟩
    · have hE : exec1 (8, arg) ⟨pc, tos :: rest, out⟩ =
          .cont ⟨pc, tos :: tos :: rest, out⟩ := rfl
      refine Or.inr ⟨_, Or.inl hE, ?_, ?_, ?_⟩
      · simp [opEvent, strJoin, str_append_empty]
      · intro _ hs v hv
        rcases List.mem_cons.mp hv with rfl | h
        · exact hs v (by simp)
        · exact hs v h
      · intro hstop; rw [hE] at hstop; exact StepOut.noConfusion hstop
  · -- JMP
    have hE : exec1 (9, arg) ⟨pc, stack, out⟩ = .cont ⟨arg, stack, out⟩ := rfl
    refine Or.inr ⟨_, Or.inl hE, ?_, fun _ hs => hs, ?_⟩
    · simp [opEvent, strJoin, str_append_empty]
    · intro hstop; rw [hE] at hstop; exact StepOut.noConfusion hstop
  · -- JMPZ
    rcases stack with _ | ⟨tos, rest⟩
    · exact Or.inl ⟨_, _, rfl, by decide, by decide⟩
    · rcases tos with _ | a
      · have hE : exec1 (10, arg) ⟨pc, none :: rest, out⟩ = .cont ⟨arg, rest, out⟩ := rfl
        refine Or.inr ⟨_, Or.inl hE, ?_, ?_, ?_⟩
        · simp [opEvent, strJoin, str_append_empty]
        · exact fun _ hs v hv => hs v (by simp [hv])
        · intro hstop; rw [hE] at hstop; exact StepOut.noConfusion hstop
      · by_cases ha : a = 0
        · subst ha
          have hE : exec1 (10, arg) ⟨pc, some 0 :: rest, out⟩ = .cont ⟨arg, rest, out⟩ := rfl
          refine Or.inr ⟨_, Or.inl hE, ?_, ?_, ?_⟩
          · simp [opEvent, strJoin, str_append_empty]
          · exact fun _ hs v hv => hs v (by simp [hv])
          · intro hstop; rw [hE] at hstop; exact StepOut.noConfusion hstop
        · have hE : exec1 (10, arg) ⟨pc, some a :: rest, out⟩ =
              .cont ⟨pc, some a :: rest, out⟩ := by
            simp [exec1, instruction_actions, vm_jmpz, check_argument_length, ha]
          refine Or.inr ⟨_, Or.inl hE, ?_, fun _ hs => hs, ?_⟩
          · simp [opEvent, strJoin, str_append_empty]
          · intro hstop; rw [hE] at hstop; exact StepOut.noConfusion hstop
  · -- WRITE
    rcases stack with _ | ⟨tos, rest⟩
    · exact Or.inl ⟨_, _, rfl, by decide, by decide⟩
    · have hE : exec1 (11, arg) ⟨pc, tos :: rest, out⟩ =
          .cont ⟨pc, tos :: rest, out ++ pyStr tos⟩ := rfl
      refine Or.inr ⟨_, Or.inl hE, ?_, fun _ hs => hs, ?_⟩
      · simp [opEvent, strJoin, str_append_empty]
      · intro hstop; rw [hE] at hstop; exact StepOut.noConfusion hstop
  · -- WRITE_CHAR
    rcases stack with _ | ⟨tos, rest⟩
    · exact Or.inl ⟨_, _, rfl, by decide, by decide⟩
    · rcases tos with _ | n0
      · exact Or.inl ⟨_, _, rfl, by decide, by decide⟩
      · by_cases hr : 0 ≤ n0 ∧ n0 ≤ 0x10FFFF
        · have hE : exec1 (12, arg) ⟨pc, some n0 :: rest, out⟩ =
              .cont ⟨pc, some n0 :: rest,
                     out ++ String.singleton (Char.ofNat n0.toNat)⟩ := by
            simp [exec1, instruction_actions, vm_write_char, check_argument_length, hr]
          refine Or.inr ⟨_, Or.inl hE, ?_, fun _ hs => hs, ?_⟩
          · simp [opEvent, strJoin, str_append_empty, hr]
          · intro hstop; rw [hE] at hstop; exact StepOut.noConfusion hstop
        · refine Or.inl ⟨.valueError, ⟨pc, some n0 :: rest, out⟩, ?_, by decide, by decide⟩
          simp [exec1, instruction_actions, vm_write_char, check_argument_length, hr]
  · -- unregistered opcode id
    exact Or.inl ⟨_, _, rfl, by decide, by decide⟩

theorem exec1_output (instr : Instr) (s1 s2 : VMState)
    (h : exec1 instr s1 = .cont s2 ∨ exec1 instr s1 = .stop s2) :
    s2.vm_output = s1.vm_output ++ strJoin (opEvent instr.1 s1.stack) := by
  obtain ⟨opId, arg⟩ := instr
  rcases exec1_main opId arg s1 with ⟨e, sE, he, _, _⟩ | ⟨s2x, hx, hout, _, _⟩
  · rcases h with h | h <;> rw [he] at h <;> exact StepOut.noConfusion h
  · rcases hx with hx | hx <;> rcases h with h | h <;> rw [hx] at h <;>
      first
      | exact StepOut.noConfusion h
      | (injection h with h2; subst h2; exact hout)

theorem exec1_allSome (instr : Instr) (s1 s2 : VMState)
    (h : exec1 instr s1 = .cont s2 ∨ exec1 instr s1 = .stop s2)
    (harg : instr.1 = 1 → (instr.2).isSome) (hs : allSome s1.stack) :
    allSome s2.stack := by
  obtain ⟨opId, arg⟩ := instr
  rcases exec1_main opId arg s1 with ⟨e, sE, he, _, _⟩ | ⟨s2x, hx, _, hsome, _⟩
  · rcases h with h | h <;> rw [he] at h <;> exact StepOut.noConfusion h
  · rcases hx with hx | hx <;> rcases h with h | h <;> rw [hx] at h <;>
      first
      | exact StepOut.noConfusion h
      | (injection h with h2; subst h2; exact hsome harg hs)

theorem exec1_stop_stack (instr : Instr) (s1 s2 : VMState)
    (h : exec1 instr s1 = .stop s2) : s2.stack ≠ [] := by
  obtain ⟨opId, arg⟩ := instr
  rcases exec1_main opId arg s1 with ⟨e, sE, he, _, _⟩ | ⟨s2x, hx, _, _, hstop⟩
  · rw [he] at h; exact StepOut.noConfusion h
  · rcases hx with hx | hx <;> rw [hx] at h
    · exact StepOut.noConfusion h
    · injection h with h2; subst h2; exact hstop hx

theorem exec1_err_kinds (instr : Instr) (s1 : VMState) (e : VMError) (sE : VMState)
    (h : exec1 instr s1 = .err e sE) : e ≠ .segfault ∧ e ≠ .indexError := by
  obtain ⟨opId, arg⟩ := instr
  rcases exec1_main opId arg s1 with ⟨ex, sEx, he, hseg, hidx⟩ | ⟨s2x, hx, _, _, _⟩
  · rw [he] at h
    injection h with h1 h2
    subst h1
    exact ⟨hseg, hidx⟩
  · rcases hx with hx | hx <;> rw [hx] at h <;> exact StepOut.noConfusion h

theorem step_output (code : Code) (s s2 : VMState)
    (h : step code s = .cont s2 ∨ step code s = .stop s2) :
    s2.vm_output = s.vm_output ++ strJoin (stepEvent code s) := by
  rcases hpc : s.pc with _ | p
  · rcases h with h | h <;> simp only [step, hpc] at h <;> exact StepOut.noConfusion h
  · by_cases hb : p < 0 ∨ (code.length : Int) ≤ p
    · rcases h with h | h <;> simp only [step, hpc, dif_pos hb] at h <;>
        exact StepOut.noConfusion h
    · simp only [step, hpc, dif_neg hb] at h
      simp only [stepEvent, hpc, dif_neg hb]
      exact exec1_output _ { s with pc := some (p + 1) } s2 h

theorem step_stop_stack (code : Code) (s s2 : VMState)
    (h : step code s = .stop s2) : s2.stack ≠ [] := by
  rcases hpc : s.pc with _ | p
  · simp only [step, hpc] at h
    exact StepOut.noConfusion h
  · by_cases hb : p < 0 ∨ (code.length : Int) ≤ p
    · simp only [step, hpc, dif_pos hb] at h
      exact StepOut.noConfusion h
    · simp only [step, hpc, dif_neg hb] at h
      exact exec1_stop_stack _ _ _ h

theorem step_allSome (code : Code) (s s2 : VMState)
    (hcode : ∀ instr ∈ code, instr.1 = 1 → (instr.2).isSome)
    (hs : allSome s.stack)
    (h : step code s = .cont s2 ∨ step code s = .stop s2) : allSome s2.stack := by
  rcases hpc : s.pc with _ | p
  · rcases h with h | h <;> simp only [step, hpc] at h <;> exact StepOut.noConfusion h
  · by_cases hb : p < 0 ∨ (code.length : Int) ≤ p
    · rcases h with h | h <;> simp only [step, hpc, dif_pos hb] at h <;>
        exact StepOut.noConfusion h
    · simp only [step, hpc, dif_neg hb] at h
      exact exec1_allSome _ { s with pc := some (p + 1) } s2 h
        (hcode _ (List.get_mem code _ _)) hs

theorem step_err_not_index (code : Code) (s : VMState) (e : VMError) (sE : VMState)
    (h : step code s = .err e sE) : e ≠ .indexError := by
  rcases hpc : s.pc with _ | p
  · simp only [step, hpc] at h
    injection h with h1 h2
    subst h1
    decide
  · by_cases hb : p < 0 ∨ (code.length : Int) ≤ p
    · simp only [step, hpc, dif_pos hb] at h
      injection h with h1 h2
      subst h1
      decide
    · simp only [step, hpc, dif_neg hb] at h
      exact (exec1_err_kinds _ _ _ _ h).2

theorem step_err_segfault_oob (code : Code) (s : VMState) (sE : VMState)
    (h : step code s = .err .segfault sE) :
    ∃ p, s.pc = some p ∧ (p < 0 ∨ (code.length : Int) ≤ p) := by
  rcases hpc : s.pc with _ | p
  · simp only [step, hpc] at h
    injection h with h1 h2
    exact absurd h1 (by decide)
  · by_cases hb : p < 0 ∨ (code.length : Int) ≤ p
    · exact ⟨p, rfl, hb⟩
    · simp only [step, hpc, dif_neg hb] at h
      exact absurd (exec1_err_kinds _ _ _ _ h).1 (by simp)

theorem step_segfault_of_oob (code : Code) (s : VMState) (p : Int)
    (hpc : s.pc = some p) (hb : p < 0 ∨ (code.length : Int) ≤ p) :
    step code s = .err .segfault s := by
  simp only [step, hpc, dif_pos hb]

theorem run_never_index_error : ∀ (fuel : Nat) (code : Code) (s sE : VMState),
    run fuel code s ≠ .err .indexError sE := by
  intro fuel
  induction fuel with
  | zero =>
    intro code s sE h
    simp [run] at h
  | succ n ih =>
    intro code s sE h
    simp only [run] at h
    rcases hstep : step code s with s2 | sF | ⟨e, sE2⟩ <;> simp only [hstep] at h
    · exact ih code s2 sE h
    · rcases hstk : sF.stack with _ | ⟨t, rest⟩ <;> simp only [hstk] at h
      · exact step_stop_stack code s sF hstep hstk
      · exact RunResult.noConfusion h
    · have h1 : e = VMError.indexError := by
        injection h
      exact step_err_not_index code s e sE2 hstep h1

/-- C1: for every program whose execution terminates normally (the stop
signal, produced only by EXIT) with a non-empty operand stack, `run` returns
the value on top of the stack at termination together with an output string
equal to the initial output extended by the concatenation, in execution order,
of the strings appended by each executed WRITE (`str` of the top) and
WRITE_CHAR (`chr` of the top), as collected by `runEvents`. -/
theorem run_exit_returns_top_and_write_output : ∀ (fuel : Nat) (code : Code) (s : VMState)
    (top : Option Int) (out : String), run fuel code s = .ok top out →
    ∃ sf, finalState fuel code s = some sf ∧ sf.stack.head? = some top ∧
      out = sf.vm_output ∧ out = s.vm_output ++ strJoin (runEvents fuel code s) := by
  intro fuel
  induction fuel with
  | zero =>
    intro code s top out h
    simp [run] at h
  | succ n ih =>
    intro code s top out h
    simp only [run] at h
    rcases hstep : step code s with s2 | sF | ⟨e, sE2⟩ <;> simp only [hstep] at h
    · obtain ⟨sf, hfs, hhead, hout1, hout2⟩ := ih code s2 top out h
      refine ⟨sf, ?_, hhead, hout1, ?_⟩
      · simp only [finalState, hstep]
        exact hfs
      · simp only [runEvents, hstep]
        rw [strJoin_append, ← str_append_assoc, ← step_output code s s2 (Or.inl hstep)]
        exact hout2
    · rcases hstk : sF.stack with _ | ⟨t, rest⟩ <;> simp only [hstk] at h
      · exact RunResult.noConfusion h
      · injection h with h1 h2
        subst h1
        subst h2
        refine ⟨sF, ?_, ?_, rfl, ?_⟩
        · simp only [finalState, hstep]
        · rw [hstk]
          rfl
        · simp only [runEvents, hstep]
          exact step_output code s sF (Or.inr hstep)
    · exact RunResult.noConfusion h

theorem step_eq_exec1 (code : Code) (s : VMState) (p : Int) (instr : Instr)
    (hpc : s.pc = some p) (h0 : 0 ≤ p) (hlt : p < (code.length : Int))
    (hfetch : code[p.toNat]? = some instr) :
    step code s = exec1 instr { s with pc := some (p + 1) } := by
  have hb : ¬(p < 0 ∨ (code.length : Int) ≤ p) := by omega
  simp only [step, hpc, dif_neg hb]
  congr 1
  obtain ⟨hlen, hget⟩ := List.getElem?_eq_some.mp hfetch
  rw [List.get_eq_getElem]
  exact hget

/-- C3: the IndexError that reading the top of an empty stack at normal
termination would raise can never surface from `run`: the loop stops only on
EXIT, whose own depth check guarantees a non-empty stack first — executing
EXIT (opcode 3) with an empty stack makes the run fail with StackFail, with
the already-incremented pc, instead of reaching the final top-of-stack read. -/
theorem normal_termination_empty_stack_stackfail :
    (∀ (fuel : Nat) (code : Code) (s sE : VMState),
        run fuel code s ≠ .err .indexError sE) ∧
    (∀ (code : Code) (s : VMState) (p : Int) (arg : Option Int),
        s.pc = some p → 0 ≤ p → p < (code.length : Int) →
        code[p.toNat]? = some (3, arg) → s.stack = [] →
        step code s = .err .stackFail { s with pc := some (p + 1) }) := by
  refine ⟨run_never_index_error, ?_⟩
  intro code s p arg hpc h0 hlt hfetch hstk
  rw [step_eq_exec1 code s p (3, arg) hpc h0 hlt hfetch]
  simp [exec1, instruction_actions, vm_exit, check_argument_length, hstk]

/-- Witness for C3: a run never ends in IndexError, and EXIT at pc 0 with an
empty stack steps to StackFail. -/
theorem normal_termination_empty_stack_stackfail_witness :
    run 3 [(3, none)] initState ≠ .err .indexError initState ∧
    step [(3, none)] initState = .err .stackFail { pc := some 1, stack := [], vm_output := "" } :=
  ⟨normal_termination_empty_stack_stackfail.1 3 [(3, none)] initState initState,
   normal_termination_empty_stack_stackfail.2 [(3, none)] initState 0 none rfl
     (by decide) (by decide) rfl rfl⟩

/-- C4 counterexample: running the one-instruction program EXIT from the
initial (empty-stack) state raises StackFail — the claim said EXIT's depth
check is a no-op and would signal termination instead. -/
theorem exit_empty_stack_counterexample :
    run 1 [(3, none)] initState =
      .err .stackFail { pc := some 1, stack := [], vm_output := "" } := rfl

/-- C4 (amended): EXIT is depth-checked with the decorator's DEFAULT depth 1,
not 0: against an empty operand stack it raises StackFail; with at least one
element it signals loop termination (returns the stop signal). -/
theorem exit_requires_stack_depth_one (s : VMState) (arg : Option Int) :
    (s.stack = [] → vm_exit s arg = .err .stackFail s) ∧
    (s.stack ≠ [] → vm_exit s arg = .ret s false) := by
  constructor
  · intro h
    simp [vm_exit, check_argument_length, h]
  · intro h
    have hlen : ¬(s.stack.length < 1) := by
      rcases hstk : s.stack with _ | ⟨a, l⟩
      · exact absurd hstk h
      · simp
    simp [vm_exit, check_argument_length, hlen]

/-- Witness for C4's amended claim at concrete states. -/
theorem exit_requires_stack_depth_one_witness :
    vm_exit initState none = .err .stackFail initState ∧
    vm_exit { pc := some 0, stack := [some 7], vm_output := "" } none =
      .ret { pc := some 0, stack := [some 7], vm_output := "" } false :=
  ⟨(exit_requires_stack_depth_one initState none).1 rfl,
   (exit_requires_stack_depth_one { pc := some 0, stack := [some 7], vm_output := "" } none).2
     (by decide)⟩

/-- C5: with two integers on top of the stack, DIV pops the divisor `a` (the
top) and the dividend `b`; a zero divisor raises DivByZero, otherwise
`floor(b / a)` (Python `//`, floor division, negatives included) is pushed
and execution continues (the handler returns the continue signal). -/
theorem div_floor_and_zero_check (s : VMState) (arg : Option Int) (a b : Int)
    (rest : List (Option Int)) (hstk : s.stack = some a :: some b :: rest) :
    (a = 0 → vm_div s arg = .err .divByZero { s with stack := rest }) ∧
    (a ≠ 0 → vm_div s arg = .ret { s with stack := some (Int.fdiv b a) :: rest } true) := by
  have hlen : ¬(s.stack.length < 2) := by
    rw [hstk]; simp only [List.length_cons]; omega
  constructor
  · intro ha
    subst ha
    simp [vm_div, check_argument_length, hstk, hlen]
  · intro ha
    simp [vm_div, check_argument_length, hstk, hlen, ha]

/-- Witness for C5: `-7 // 2 = -4` (floor), and `100 / 0` raises DivByZero. -/
theorem div_floor_and_zero_check_witness :
    vm_div { pc := some 0, stack := [some 2, some (-7)], vm_output := "" } none =
      .ret { pc := some 0, stack := [some (-4)], vm_output := "" } true ∧
    vm_div { pc := some 0, stack := [some 0, some 100], vm_output := "" } none =
      .err .divByZero { pc := some 0, stack := [], vm_output := "" } :=
  ⟨(div_floor_and_zero_check { pc := some 0, stack := [some 2, some (-7)], vm_output := "" }
      none 2 (-7) [] rfl).2 (by decide),
   (div_floor_and_zero_check { pc := some 0, stack := [some 0, some 100], vm_output := "" }
      none 0 100 [] rfl).1 rfl⟩

/-- C10: when DIV raises DivByZero (stack depth at least 2, divisor 0 on
top), both operands have already been popped: the faulting state's stack is
the original stack minus its top two elements. -/
theorem div_by_zero_pops_both_operands (s : VMState) (arg : Option Int)
    (b : Option Int) (rest : List (Option Int)) (hstk : s.stack = some 0 :: b :: rest) :
    vm_div s arg = .err .divByZero { s with stack := rest } := by
  have hlen : ¬(s.stack.length < 2) := by
    rw [hstk]; simp only [List.length_cons]; omega
  simp [vm_div, check_argument_length, hstk, hlen]

/-- Witness for C10 at a concrete three-element stack. -/
theorem div_by_zero_pops_both_operands_witness :
    vm_div { pc := some 3, stack := [some 0, some 100, some 9], vm_output := "" } none =
      .err .divByZero { pc := some 3, stack := [some 9], vm_output := "" } :=
  div_by_zero_pops_both_operands { pc := some 3, stack := [some 0, some 100, some 9], vm_output := "" }
    none (some 100) [some 9] rfl

/-- Witness for C1 at the demonstration program of `main.py`
(`LOAD_CONST 432; LOAD_CONST 905; ADD; PRINT; LOAD_CONST 65; WRITE_CHAR;
EXIT`): the final top of stack is the 65 left by `LOAD_CONST 65` (WRITE_CHAR
does not pop), and the output is exactly the one WRITE_CHAR event `A`. -/
theorem run_exit_returns_top_and_write_output_witness :
    ∃ sf, finalState 10
        [(1, some 432), (1, some 905), (2, none), (0, none), (1, some 65), (12, none), (3, none)]
        initState = some sf ∧
      sf.stack.head? = some (some 65) ∧
      "A" = sf.vm_output ∧
      "A" = initState.vm_output ++ strJoin (runEvents 10
        [(1, some 432), (1, some 905), (2, none), (0, none), (1, some 65), (12, none), (3, none)]
        initState) :=
  run_exit_returns_top_and_write_output 10
    [(1, some 432), (1, some 905), (2, none), (0, none), (1, some 65), (12, none), (3, none)]
    initState (some 65) "A" (by rfl)

/-- C2 counterexample: a bare `LOAD_CONST` line assembles with the absent
marker as argument, executing it pushes that non-integer marker (`None`) onto
the operand stack, and `run` even returns it as the final top-of-stack. -/
theorem stack_nonint_counterexample :
    assemble "LOAD_CONST\nEXIT" = .ok [(1, none), (3, none)] ∧
    step [(1, none), (3, none)] initState =
      .cont { pc := some 1, stack := [none], vm_output := "" } ∧
    run 2 [(1, none), (3, none)] initState = .ok none "" ∧
    (none : Option Int).isSome = false :=
  ⟨rfl, rfl, rfl, rfl⟩

/-- C2 (amended): provided every `LOAD_CONST` instruction of the program
carries a present argument, every execution step maps an all-integer operand
stack to an all-integer operand stack; without that proviso `vm_load_const`
pushes the assembler's absent marker (`None`). -/
theorem step_preserves_integer_stack (code : Code) (s s2 : VMState)
    (hcode : ∀ instr ∈ code, instr.1 = 1 → (instr.2).isSome)
    (hs : allSome s.stack)
    (h : step code s = .cont s2 ∨ step code s = .stop s2) :
    allSome s2.stack :=
  step_allSome code s s2 hcode hs h

/-- Witness for C2's amended claim: one LOAD_CONST step with a present
argument keeps the stack all-integer. -/
theorem step_preserves_integer_stack_witness :
    allSome [some (5 : Int)] :=
  step_preserves_integer_stack [(1, some 5)] initState
    { pc := some 1, stack := [some 5], vm_output := "" }
    (by decide) (fun v hv => absurd hv (List.not_mem_nil v)) (Or.inl rfl)

/-- C6: JMPZ (opcode 10, required stack depth 1, fetched at pc `p`): on an
empty stack the decorator raises StackFail; on a falsy top (0 or None) it
pops the top and stores its argument into pc; on a nonzero integer top it
leaves the stack depth and contents unchanged and falls through to the
already-incremented `p + 1`. -/
theorem jmpz_pop_and_branch (code : Code) (s : VMState) (p : Int) (arg : Option Int)
    (hpc : s.pc = some p) (h0 : 0 ≤ p) (hlt : p < (code.length : Int))
    (hfetch : code[p.toNat]? = some (10, arg)) :
    (s.stack = [] → step code s = .err .stackFail { s with pc := some (p + 1) }) ∧
    (∀ tos rest, s.stack = tos :: rest → (tos = some 0 ∨ tos = none) →
        step code s = .cont { s with pc := arg, stack := rest }) ∧
    (∀ x rest, s.stack = some x :: rest → x ≠ 0 →
        step code s = .cont { s with pc := some (p + 1) }) := by
  rw [step_eq_exec1 code s p (10, arg) hpc h0 hlt hfetch]
  refine ⟨?_, ?_, ?_⟩
  · intro hstk
    simp [exec1, instruction_actions, vm_jmpz, check_argument_length, hstk]
  · intro tos rest hstk htos
    rcases htos with rfl | rfl <;>
      simp [exec1, instruction_actions, vm_jmpz, check_argument_length, hstk]
  · intro x rest hstk hx
    simp [exec1, instruction_actions, vm_jmpz, check_argument_length, hstk, hx]

/-- Witness for C6: `JMPZ 5` pops-and-jumps on top 0, falls through with the
stack untouched on top 3. -/
theorem jmpz_pop_and_branch_witness :
    step [(10, some 5)] { pc := some 0, stack := [some 0, some 8], vm_output := "" } =
      .cont { pc := some 5, stack := [some 8], vm_output := "" } ∧
    step [(10, some 5)] { pc := some 0, stack := [some 3], vm_output := "" } =
      .cont { pc := some 1, stack := [some 3], vm_output := "" } :=
  ⟨(jmpz_pop_and_branch [(10, some 5)] { pc := some 0, stack := [some 0, some 8], vm_output := "" }
      0 (some 5) rfl (by decide) (by decide) rfl).2.1 (some 0) [some 8] rfl (Or.inl rfl),
   (jmpz_pop_and_branch [(10, some 5)] { pc := some 0, stack := [some 3], vm_output := "" }
      0 (some 5) rfl (by decide) (by decide) rfl).2.2 3 [] rfl (by decide)⟩

/-- C7: a step raises Segfault exactly when the pc holds an integer outside
`[0, len(code))` at fetch time; and JMP performs no check at all when it sets
pc — it stores its argument unconditionally and continues, the fault only
surfacing at the next fetch. -/
theorem segfault_iff_pc_out_of_range :
    (∀ (code : Code) (s : VMState),
        (∃ sE, step code s = .err .segfault sE) ↔
          ∃ p, s.pc = some p ∧ (p < 0 ∨ (code.length : Int) ≤ p)) ∧
    (∀ (s : VMState) (arg : Option Int), vm_jmp s arg = .ret { s with pc := arg } true) := by
  constructor
  · intro code s
    constructor
    · rintro ⟨sE, h⟩
      exact step_err_segfault_oob code s sE h
    · rintro ⟨p, hpc, hb⟩
      exact ⟨s, step_segfault_of_oob code s p hpc hb⟩
  · intro s arg
    rfl

/-- Witness for C7: a pc of 7 in a one-instruction program segfaults (and a
negative pc does too), while JMP 99 just stores 99. -/
theorem segfault_iff_pc_out_of_range_witness :
    (∃ sE, step [(3, none)] { pc := some 7, stack := [], vm_output := "" } =
        .err .segfault sE) ∧
    (∃ sE, step [(3, none)] { pc := some (-2), stack := [], vm_output := "" } =
        .err .segfault sE) ∧
    vm_jmp initState (some 99) = .ret { pc := some 99, stack := [], vm_output := "" } true :=
  ⟨(segfault_iff_pc_out_of_range.1 [(3, none)]
      { pc := some 7, stack := [], vm_output := "" }).mpr ⟨7, rfl, by decide⟩,
   (segfault_iff_pc_out_of_range.1 [(3, none)]
      { pc := some (-2), stack := [], vm_output := "" }).mpr ⟨-2, rfl, by decide⟩,
   segfault_iff_pc_out_of_range.2 initState (some 99)⟩

theorem assembleFiltered_error (ls : List String) (e : VMError)
    (h : assembleFiltered ls = .error e) : ∃ l ∈ ls, assembleLine l = .error e := by
  induction ls with
  | nil => simp [assembleFiltered] at h
  | cons l ls ih =>
    simp only [assembleFiltered] at h
    rcases hline : assembleLine l with e2 | i <;> simp only [hline] at h
    · injection h with h1
      exact ⟨l, by simp, by rw [hline, h1]⟩
    · rcases hrest : assembleFiltered ls with e2 | rest2 <;> simp only [hrest] at h
      · injection h with h1
        rw [h1] at hrest
        obtain ⟨l2, hmem, hl2⟩ := ih hrest
        exact ⟨l2, by simp [hmem], hl2⟩
      · exact Except.noConfusion h

theorem assembleLine_error_kinds (line : String) (e : VMError)
    (h : assembleLine line = .error e) :
    e = .invalidInstruction ∨ e = .valueError := by
  unfold assembleLine at h
  rcases hsplit : pySplit ' ' line with _ | ⟨w0, _ | ⟨w1, _ | ⟨w2, rest⟩⟩⟩ <;>
    simp only [hsplit] at h
  · injection h with h1
    exact Or.inl h1.symm
  · rcases hid : instruction_ids w0 with _ | i <;> simp only [hid] at h
    · injection h with h1
      exact Or.inl h1.symm
    · exact Except.noConfusion h
  · rcases hid : instruction_ids w0 with _ | i <;> simp only [hid] at h
    · injection h with h1
      exact Or.inl h1.symm
    · rcases hint : pyInt w1 with _ | n <;> simp only [hint] at h
      · injection h with h1
        exact Or.inr h1.symm
      · exact Except.noConfusion h
  · injection h with h1
    exact Or.inl h1.symm

theorem assembleFiltered_length (ls : List String) (prog : Code)
    (h : assembleFiltered ls = .ok prog) : prog.length = ls.length := by
  induction ls generalizing prog with
  | nil =>
    simp only [assembleFiltered] at h
    injection h with h1
    rw [← h1]
    rfl
  | cons l ls ih =>
    simp only [assembleFiltered] at h
    rcases hline : assembleLine l with e | i <;> simp only [hline] at h
    · exact Except.noConfusion h
    · rcases hrest : assembleFiltered ls with e | rest2 <;> simp only [hrest] at h
      · exact Except.noConfusion h
      · injection h with h1
        rw [← h1]
        simp [ih rest2 hrest]

theorem splitChars_ne_nil (sep : Char) (cs : List Char) : splitChars sep cs ≠ [] := by
  cases cs with
  | nil => simp [splitChars]
  | cons c cs =>
    simp only [splitChars]
    rcases h : splitChars sep cs with _ | ⟨w, ws⟩
    · simp
    · by_cases hc : c = sep <;> simp [hc]

theorem splitChars_head_subset (sep : Char) (cs : List Char) :
    ∀ w ws, splitChars sep cs = w :: ws → ∀ c ∈ w, c ∈ cs := by
  induction cs with
  | nil =>
    intro w ws h c hc
    simp only [splitChars] at h
    injection h with h1 h2
    rw [← h1] at hc
    exact absurd hc (List.not_mem_nil c)
  | cons x cs ih =>
    intro w ws h c hc
    simp only [splitChars] at h
    rcases hrec : splitChars sep cs with _ | ⟨w2, ws2⟩ <;> simp only [hrec] at h
    · injection h with h1 h2
      rw [← h1] at hc
      rcases List.mem_cons.mp hc with rfl | hc2
      · exact List.mem_cons_self c cs
      · exact absurd hc2 (List.not_mem_nil c)
    · by_cases hx : x = sep
      · rw [if_pos hx] at h
        injection h with h1 h2
        rw [← h1] at hc
        exact absurd hc (List.not_mem_nil c)
      · rw [if_neg hx] at h
        injection h with h1 h2
        rw [← h1] at hc
        rcases List.mem_cons.mp hc with rfl | hc2
        · exact List.mem_cons_self c cs
        · exact List.mem_cons_of_mem x (ih w2 ws2 hrec c hc2)

theorem instruction_ids_whitespace_none (w : String)
    (hw : ∀ c ∈ w.data, pyWhitespace c) : instruction_ids w = none := by
  rcases hid : instruction_ids w with _ | i
  · rfl
  · exfalso
    unfold instruction_ids at hid
    split at hid <;>
      first
      | exact Option.noConfusion hid
      | exact absurd hw (by decide)

theorem assembleFiltered_forall2 (ls : List String) (prog : Code)
    (h : assembleFiltered ls = .ok prog) :
    List.Forall₂ (fun l instr => assembleLine l = .ok instr) ls prog := by
  induction ls generalizing prog with
  | nil =>
    simp only [assembleFiltered] at h
    injection h with h1
    rw [← h1]
    exact List.Forall₂.nil
  | cons l ls ih =>
    simp only [assembleFiltered] at h
    rcases hline : assembleLine l with e | i <;> simp only [hline] at h
    · exact Except.noConfusion h
    · rcases hrest : assembleFiltered ls with e | rest2 <;> simp only [hrest] at h
      · exact Except.noConfusion h
      · injection h with h1
        rw [← h1]
        exact List.Forall₂.cons hline (ih rest2 hrest)

/-- C8 counterexample: a present but non-numeric argument token makes
`assemble` fail with the Python ValueError raised by `int()`, which is a
different error kind than InvalidInstruction — the claim's third case does
not hold on the source. -/
theorem assemble_badarg_counterexample :
    assemble "LOAD_CONST x\nEXIT" = .error .valueError ∧
    VMError.valueError ≠ VMError.invalidInstruction :=
  ⟨rfl, by decide⟩

/-- C8 (amended): a non-empty line fails with InvalidInstruction in exactly
two cases — three or more space-separated tokens, or an unregistered mnemonic
— while a present argument token that does not parse as an integer raises the
ValueError of Python's `int()` instead; every assembly failure comes from one
of the assembled lines with exactly these two error kinds, and `assemble`
returns an error (no partial program) in each case. -/
theorem assemble_error_taxonomy (line w0 : String) (rest : List String)
    (hsplit : pySplit ' ' line = w0 :: rest) :
    (assembleLine line = .error .invalidInstruction ↔
      2 ≤ rest.length ∨ (rest.length ≤ 1 ∧ instruction_ids w0 = none)) ∧
    (assembleLine line = .error .valueError ↔
      ∃ w1, rest = [w1] ∧ (instruction_ids w0).isSome ∧ pyInt w1 = none) ∧
    (∀ (input : String) (e : VMError), assemble input = .error e →
      (e = .invalidInstruction ∨ e = .valueError) ∧
        ∃ l ∈ (pySplit '\n' input).filter (fun l => l != ""), assembleLine l = .error e) := by
  refine ⟨?_, ?_, ?_⟩
  · rcases rest with _ | ⟨w1, _ | ⟨w2, rest2⟩⟩
    · rcases hid : instruction_ids w0 with _ | i <;>
        simp [assembleLine, hsplit, hid]
    · rcases hid : instruction_ids w0 with _ | i
      · simp [assembleLine, hsplit, hid]
      · rcases hint : pyInt w1 with _ | n <;>
          simp [assembleLine, hsplit, hid, hint]
    · simp [assembleLine, hsplit]
  · rcases rest with _ | ⟨w1, _ | ⟨w2, rest2⟩⟩
    · rcases hid : instruction_ids w0 with _ | i <;>
        simp [assembleLine, hsplit, hid]
    · rcases hid : instruction_ids w0 with _ | i
      · simp [assembleLine, hsplit, hid]
      · rcases hint : pyInt w1 with _ | n <;>
          simp [assembleLine, hsplit, hid, hint]
    · simp [assembleLine, hsplit]
  · intro input e h
    have herr := assembleFiltered_error _ e h
    obtain ⟨l, hmem, hl⟩ := herr
    exact ⟨assembleLine_error_kinds l e hl, l, hmem, hl⟩

/-- Witness for C8's amended claim: an unparseable argument is a ValueError,
an unknown mnemonic and an over-long line are InvalidInstruction. -/
theorem assemble_error_taxonomy_witness :
    assembleLine "LOAD_CONST x" = .error .valueError ∧
    assembleLine "FOO" = .error .invalidInstruction ∧
    assembleLine "ADD 1 2" = .error .invalidInstruction ∧
    (VMError.valueError = .invalidInstruction ∨ VMError.valueError = .valueError) :=
  ⟨(assemble_error_taxonomy "LOAD_CONST x" "LOAD_CONST" ["x"] rfl).2.1.mpr
      ⟨"x", rfl, by decide, rfl⟩,
   (assemble_error_taxonomy "FOO" "FOO" [] rfl).1.mpr (Or.inr ⟨by decide, rfl⟩),
   (assemble_error_taxonomy "ADD 1 2" "ADD" ["1", "2"] rfl).1.mpr (Or.inl (by decide)),
   ((assemble_error_taxonomy "LOAD_CONST x" "LOAD_CONST" ["x"] rfl).2.2
      "LOAD_CONST x" .valueError rfl).1⟩

/-- C9 counterexample: a whitespace-only line (a single space) is NOT skipped
by `filter(None, ...)` — it fails assembly with InvalidInstruction — whereas
the same program with the line exactly empty assembles fine. -/
theorem assemble_space_line_counterexample :
    assemble "LOAD_CONST 1\n \nEXIT" = .error .invalidInstruction ∧
    assemble "LOAD_CONST 1\n\nEXIT" = .ok [(1, some 1), (3, none)] :=
  ⟨rfl, rfl⟩

/-- C9 (amended): `assemble` splits on newlines and skips exactly the lines
that are the empty string — those produce no instruction and no error — and
an accepted program corresponds one-to-one, in order, to the non-empty lines
(each non-empty line assembles to the instruction at the same position, so in
particular the counts agree); a whitespace-only but non-empty line is not
skipped: its first space-delimited token consists only of whitespace (the
empty string when the line starts with a space), which is not a registered
mnemonic, so it fails with InvalidInstruction. -/
theorem assemble_empty_line_handling :
    (∀ ls1 ls2 : List String,
        assembleLineList (ls1 ++ "" :: ls2) = assembleLineList (ls1 ++ ls2)) ∧
    (∀ (ls : List String) (prog : Code), assembleLineList ls = .ok prog →
        List.Forall₂ (fun l instr => assembleLine l = .ok instr)
          (ls.filter (fun l => l != "")) prog ∧
        prog.length = (ls.filter (fun l => l != "")).length) ∧
    (∀ line : String, line ≠ "" → (∀ c ∈ line.data, pyWhitespace c) →
        assembleLine line = .error .invalidInstruction) := by
  refine ⟨?_, ?_, ?_⟩
  · intro ls1 ls2
    simp [assembleLineList, List.filter_append, List.filter_cons]
  · intro ls prog h
    exact ⟨assembleFiltered_forall2 _ prog h, assembleFiltered_length _ prog h⟩
  · intro line hne hsp
    rcases hs0 : splitChars ' ' line.data with _ | ⟨w0d, restd⟩
    · exact absurd hs0 (splitChars_ne_nil ' ' line.data)
    · have hsplit : pySplit ' ' line =
          List.asString w0d :: restd.map List.asString := by
        unfold pySplit
        rw [hs0]
        rfl
      have hw0 : ∀ c ∈ (List.asString w0d).data, pyWhitespace c := fun c hc =>
        hsp c (splitChars_head_subset ' ' line.data w0d restd hs0 c hc)
      have hid : instruction_ids (List.asString w0d) = none :=
        instruction_ids_whitespace_none _ hw0
      unfold assembleLine
      rw [hsplit]
      rcases restd with _ | ⟨r1, rest2⟩
      · simp [hid]
      · rcases rest2 with _ | ⟨r2, rest3⟩
        · simp [hid]
        · rfl

/-- Witness for C9's amended claim at concrete line lists: the in-order
line-instruction correspondence for `["EXIT"]`, empty-line deletion, and the
InvalidInstruction failure of a space-only and of a tab-only line. -/
theorem assemble_empty_line_handling_witness :
    (List.Forall₂ (fun l instr => assembleLine l = .ok instr)
        (["EXIT"].filter (fun l => l != "")) [((3 : Nat), (none : Option Int))] ∧
      ([((3 : Nat), (none : Option Int))] : Code).length =
        (["EXIT"].filter (fun l => l != "")).length) ∧
    assembleLineList ["EXIT", ""] = assembleLineList ["EXIT"] ∧
    assembleLine " " = .error .invalidInstruction ∧
    assembleLine "\t" = .error .invalidInstruction :=
  ⟨assemble_empty_line_handling.2.1 ["EXIT"] [(3, none)] rfl,
   assemble_empty_line_handling.1 ["EXIT"] [],
   assemble_empty_line_handling.2.2 " " (by decide) (by decide),
   assemble_empty_line_handling.2.2 "\t" (by decide) (by decide)⟩
